import Mathlib

/-!
Shallow embedding of the Five Crowns scorer core (game.js and statistics.js).

Machine numbers are modelled as Int (scores) and Nat (round counters, list
indices); scores cells are Option Int, with none standing for the JS null
"no score yet".  Fallible operations return Except GameError.  The JS code
throws plain Error objects; the specification's taxonomy maps the two
explicit throw sites of each method to validationError / stateError.  A
third constructor, typeError, models the implicit JS TypeError raised when
the code indexes a row of the score matrix that does not exist
(scores[index] is undefined and undefined[k] = v throws).
-/

namespace FiveCrowns

/-- Error taxonomy.  validationError / stateError correspond to the explicit
throw statements in game.js; typeError models the implicit runtime TypeError
from writing through a missing score row. -/
inductive GameError where
  | validationError
  | stateError
  | typeError
deriving DecidableEq

/-- Live game state: game.js constructor fields players / scores /
currentRound.  maxRounds and roundCards are constant-valued instance fields
(set once in the constructor, never reassigned and never restored from
persistence), embedded below as constants. -/
structure GameState where
  players : List String
  scores : List (List (Option Int))
  currentRound : Nat
deriving DecidableEq

/-- this.maxRounds = 11 (game.js constructor; never reassigned). -/
def maxRounds : Nat := 11

/-- Initial state built by the game.js constructor. -/
def initGame : GameState := { players := [], scores := [], currentRound := 1 }

/-- Winner descriptor returned by Game.getWinner and
Statistics.determineWinner. -/
structure Winner where
  name : String
  score : Int
  index : Nat
deriving DecidableEq

/-- startNewGame(playerNames): requires at least two names, then replaces the
roster, allocates a players.length x maxRounds matrix of null and resets
currentRound to 1 (the persistence write is external and not modelled). -/
def startNewGame (g : GameState) (playerNames : List String) :
    Except GameError GameState :=
  if playerNames.length < 2 then
    .error .validationError
  else
    .ok { g with
          players := playerNames,
          scores := playerNames.map (fun _ => List.replicate maxRounds none),
          currentRound := 1 }

/-- Whitespace trimming as used by addPlayer (JS String.prototype.trim),
implemented over the character list: drop leading and trailing whitespace
characters.  (Core String.trim is byte-position based and does not reduce
inside the kernel; this structural version computes the same string on the
inputs of interest.) -/
def jsTrim (s : String) : String :=
  ⟨((s.toList.dropWhile Char.isWhitespace).reverse.dropWhile
      Char.isWhitespace).reverse⟩

/-- addPlayer(name): trims the name, rejects empty or duplicate names,
otherwise appends to the roster and returns true.  Scores are not touched. -/
def addPlayer (g : GameState) (name : String) :
    Except GameError (GameState × Bool) :=
  let trimmedName := jsTrim name
  if trimmedName = "" then
    .error .validationError
  else if g.players.contains trimmedName then
    .error .validationError
  else
    .ok ({ g with players := g.players ++ [trimmedName] }, true)

/-- removePlayer(index): in-bounds splice, otherwise a no-op. -/
def removePlayer (g : GameState) (index : Nat) : GameState :=
  if index < g.players.length then
    { g with players := g.players.eraseIdx index }
  else g

/-- The forEach write loop of submitRound: scores[i][col] = roundScores[i]
for each i below roundScores.length.  none signals the JS TypeError hit when
row i does not exist. -/
def writeScores : List Int → Nat → List (List (Option Int)) →
    Option (List (List (Option Int)))
  | [], _, rows => some rows
  | _ :: _, _, [] => none
  | v :: vs, col, row :: rest =>
      (writeScores vs col rest).map (fun rest₂ => row.set col (some v) :: rest₂)

/-- isGameComplete(): currentRound > maxRounds. -/
def isGameComplete (g : GameState) : Bool :=
  decide (maxRounds < g.currentRound)

/-- submitRound(roundScores): rejects a completed game (StateError) and a
score list whose length differs from the roster (ValidationError); otherwise
writes roundScores[i] into scores[i][currentRound-1], increments
currentRound and returns the new completion flag. -/
def submitRound (g : GameState) (roundScores : List Int) :
    Except GameError (GameState × Bool) :=
  if maxRounds < g.currentRound then
    .error .stateError
  else if roundScores.length ≠ g.players.length then
    .error .validationError
  else
    match writeScores roundScores (g.currentRound - 1) g.scores with
    | none => .error .typeError
    | some rows =>
        let g₂ : GameState :=
          { g with scores := rows, currentRound := g.currentRound + 1 }
        .ok (g₂, isGameComplete g₂)

/-- The forEach clearing loop of undoLastRound: scores[i][col] = null for
each roster index i below n; none signals the JS TypeError hit when row i
does not exist. -/
def clearScores : Nat → Nat → List (List (Option Int)) →
    Option (List (List (Option Int)))
  | 0, _, rows => some rows
  | _ + 1, _, [] => none
  | n + 1, col, row :: rest =>
      (clearScores n col rest).map (fun rest₂ => row.set col none :: rest₂)

/-- undoLastRound(): rejects currentRound = 1 (StateError); otherwise
decrements currentRound and nulls every player's cell of the now-current
round. -/
def undoLastRound (g : GameState) : Except GameError GameState :=
  if g.currentRound = 1 then
    .error .stateError
  else
    match clearScores g.players.length (g.currentRound - 1 - 1) g.scores with
    | none => .error .typeError
    | some rows =>
        .ok { g with scores := rows, currentRound := g.currentRound - 1 }

/-- Row total: reduce over one score row, nulls contributing zero. -/
def rowTotal (row : List (Option Int)) : Int :=
  row.foldl (fun sum score => sum + score.getD 0) 0

/-- getPlayerTotal(playerIndex).  The JS code indexes
this.scores[playerIndex] directly and would throw on a missing row; the
missing-row default [] is only exercised outside the invariant
scores.length = players.length under which the totals claims are stated. -/
def getPlayerTotal (g : GameState) (playerIndex : Nat) : Int :=
  rowTotal (g.scores.getD playerIndex [])

/-- getAllTotals(): one total per roster position. -/
def getAllTotals (g : GameState) : List Int :=
  (List.range g.players.length).map (fun i => getPlayerTotal g i)

/-- First index of a in l, as JS Array.prototype.indexOf.  On an element
that is absent JS yields -1 while this returns l.length; both winner
computations only apply it to the minimum of a non-empty list, where the
element is present and the two semantics agree. -/
def firstIdx [BEq α] : List α → α → Nat
  | [], _ => 0
  | x :: xs, a => if x == a then 0 else firstIdx xs a + 1

/-- getWinner(): null unless the game is complete; otherwise the minimum of
all totals (Math.min) and its first index (indexOf).  An empty roster would
make the JS code return a nonsense object (Math.min() = Infinity, index -1,
name undefined); that corner is modelled as none and never exercised by the
claims, which assume a non-empty roster. -/
def getWinner (g : GameState) : Option Winner :=
  if isGameComplete g then
    match getAllTotals g with
    | [] => none
    | t :: ts =>
        let minScore := ts.foldl min t
        let winnerIndex := firstIdx (t :: ts) minScore
        some { name := g.players.getD winnerIndex "",
               score := minScore,
               index := winnerIndex }
  else none

/-- reset(): back to the constructor state (storage clearing is external). -/
def reset (_ : GameState) : GameState := initGame

/-- States reachable from the constructor state through the public game
operations, a transition per successful call (failed calls throw and leave
the state unchanged). -/
inductive ReachableAny : GameState → Prop
  | init : ReachableAny initGame
  | add {g g₂ b name} : ReachableAny g → addPlayer g name = .ok (g₂, b) →
      ReachableAny g₂
  | remove {g i} : ReachableAny g → ReachableAny (removePlayer g i)
  | start {g g₂ names} : ReachableAny g → startNewGame g names = .ok g₂ →
      ReachableAny g₂
  | submit {g g₂ b v} : ReachableAny g → submitRound g v = .ok (g₂, b) →
      ReachableAny g₂
  | undo {g g₂} : ReachableAny g → undoLastRound g = .ok g₂ → ReachableAny g₂
  | reset {g} : ReachableAny g → ReachableAny (reset g)

/-- States of a started game: reached by a successful startNewGame and
closed under the round operations (the spec's setup-phase operations
addPlayer / removePlayer are excluded once play has started). -/
inductive StartedReachable : GameState → Prop
  | start {g g₂ names} : startNewGame g names = .ok g₂ → StartedReachable g₂
  | submit {g g₂ b v} : StartedReachable g → submitRound g v = .ok (g₂, b) →
      StartedReachable g₂
  | undo {g g₂} : StartedReachable g → undoLastRound g = .ok g₂ →
      StartedReachable g₂

/-! ## Statistics engine (statistics.js)

The history is a most-recent-first list of completed-game records.  The
record fields id, date and timestamp come from the wall clock
(Date.now / toISOString); the clock readings are passed in as arguments. -/

/-- Snapshot handed to the statistics engine: the players and scores of a
game state (the only fields determineWinner and saveGame read). -/
structure GameSnapshot where
  players : List String
  scores : List (List (Option Int))
deriving DecidableEq

/-- Completed-game record as built by Statistics.saveGame.  winner is
Option Winner: some for a real winner object; none models the nonsense
object determineWinner produces on an empty score matrix (name undefined),
whose name then matches no player name. -/
structure GameRecord where
  id : Int
  date : String
  players : List String
  scores : List (List (Option Int))
  winner : Option Winner
  totalRounds : Nat
  timestamp : Int
deriving DecidableEq

/-- MAX_HISTORY = 50 (statistics.js). -/
def MAX_HISTORY : Nat := 50

/-- Statistics.determineWinner(gameState): totals each score row (nulls as
zero), takes the minimum (Math.min) and its first index (indexOf).  The
empty-matrix corner, where JS yields a nonsense object, is modelled as
none; the claims about the winner assume a non-empty matrix. -/
def determineWinner (snap : GameSnapshot) : Option Winner :=
  match snap.scores.map rowTotal with
  | [] => none
  | t :: ts =>
      let minScore := ts.foldl min t
      let winnerIndex := firstIdx (t :: ts) minScore
      some { name := snap.players.getD winnerIndex "",
             score := minScore,
             index := winnerIndex }

/-- The record literal built inside Statistics.saveGame.  totalRounds counts
the non-null cells of the first player's row; the JS code indexes
scores[0] directly and would throw on an empty matrix, modelled by the
default []. -/
def mkGameRecord (snap : GameSnapshot) (now : Int) (date : String) :
    GameRecord :=
  { id := now,
    date := date,
    players := snap.players,
    scores := snap.scores,
    winner := determineWinner snap,
    totalRounds := ((snap.scores.getD 0 []).filter (fun s => s ≠ none)).length,
    timestamp := now }

/-- Statistics.saveGame(gameState): prepend the derived record (unshift),
then keep only the first MAX_HISTORY records; returns the new history and
the record (persistence of the log is external). -/
def saveGame (history : List GameRecord) (snap : GameSnapshot) (now : Int)
    (date : String) : List GameRecord × GameRecord :=
  let record := mkGameRecord snap now date
  let h := record :: history
  (if MAX_HISTORY < h.length then h.take MAX_HISTORY else h, record)

/-- History after n successive saveGame calls starting from the empty log,
the i-th call (0-based) made with clock reading i. -/
def saveGameN (snap : GameSnapshot) : Nat → List GameRecord
  | 0 => []
  | n + 1 => (saveGame (saveGameN snap n) snap (n : Int) "").1

/-! ### JSON model for importHistory

importHistory receives a string and runs it through JSON.parse.  The parse
step is a platform primitive, so the embedding takes the parse outcome as
input: none models a string JSON.parse rejects (the catch branch), some j
the parsed value. -/

/-- Parsed JSON values (numbers restricted to integers, the only numbers
the statistics records contain). -/
inductive Json where
  | null
  | bool (b : Bool)
  | num (n : Int)
  | str (s : String)
  | arr (items : List Json)
  | obj (fields : List (String × Json))

/-- First binding of a key in an object's field list. -/
def lookupField : List (String × Json) → String → Option Json
  | [], _ => none
  | (k, v) :: rest, key => if k = key then some v else lookupField rest key

/-- Property access j[key]: none models JS undefined (absent property or
access on a non-object). -/
def jget (j : Json) (key : String) : Option Json :=
  match j with
  | .obj fields => lookupField fields key
  | _ => none

/-- JS truthiness of a parsed JSON value (undefined handled by
truthyField). -/
def truthy : Json → Bool
  | .null => false
  | .bool b => b
  | .num n => decide (n ≠ 0)
  | .str s => decide (s ≠ "")
  | .arr _ => true
  | .obj _ => true

/-- Truthiness of j[key], absent properties being falsy undefined. -/
def truthyField (j : Json) (key : String) : Bool :=
  match jget j key with
  | none => false
  | some v => truthy v

/-- Whether a parsed value is an array (Array.isArray). -/
def isArr : Json → Bool
  | .arr _ => true
  | _ => false

/-- The structure check importHistory applies to each imported record:
game.players, game.scores and game.winner must all be truthy. -/
def validGameJson (j : Json) : Bool :=
  truthyField j "players" && truthyField j "scores" && truthyField j "winner"

/-- Encoding of one score cell (null / number). -/
def encodeCell : Option Int → Json
  | none => .null
  | some n => .num n

/-- Decoding of one score cell; anything not a number reads as null. -/
def decodeCell : Json → Option Int
  | .num n => some n
  | _ => none

def encodeRow (row : List (Option Int)) : Json :=
  .arr (row.map encodeCell)

def decodeRow : Json → List (Option Int)
  | .arr cells => cells.map decodeCell
  | _ => []

def encodeScores (scores : List (List (Option Int))) : Json :=
  .arr (scores.map encodeRow)

def decodeScores : Json → List (List (Option Int))
  | .arr rows => rows.map decodeRow
  | _ => []

def encodePlayers (players : List String) : Json :=
  .arr (players.map Json.str)

def decodeOneName : Json → String
  | .str s => s
  | _ => ""

def decodePlayers : Json → List String
  | .arr names => names.map decodeOneName
  | _ => []

def encodeWinner : Option Winner → Json
  | none => .null
  | some w => .obj [("name", .str w.name), ("score", .num w.score),
                    ("index", .num (w.index : Int))]

/-- String-valued property read with the JS-default empty string. -/
def jstr (j : Json) (key : String) : String :=
  match jget j key with
  | some (.str s) => s
  | _ => ""

/-- Number-valued property read with default 0. -/
def jint (j : Json) (key : String) : Int :=
  match jget j key with
  | some (.num n) => n
  | _ => 0

def decodeWinner : Option Json → Option Winner
  | some (.obj fields) =>
      some { name := jstr (.obj fields) "name",
             score := jint (.obj fields) "score",
             index := (jint (.obj fields) "index").toNat }
  | _ => none

/-- Wire shape of a completed-game record. -/
def encodeRecord (r : GameRecord) : Json :=
  .obj [("id", .num r.id),
        ("date", .str r.date),
        ("players", encodePlayers r.players),
        ("scores", encodeScores r.scores),
        ("winner", encodeWinner r.winner),
        ("totalRounds", .num (r.totalRounds : Int)),
        ("timestamp", .num r.timestamp)]

/-- Reading a parsed record back into the record shape, absent or ill-typed
properties reading as JS undefined does through the accessors above. -/
def decodeRecord (j : Json) : GameRecord :=
  { id := jint j "id",
    date := jstr j "date",
    players := decodePlayers ((jget j "players").getD .null),
    scores := decodeScores ((jget j "scores").getD .null),
    winner := decodeWinner (jget j "winner"),
    totalRounds := (jint j "totalRounds").toNat,
    timestamp := jint j "timestamp" }

/-- The sort comparator (a, b) => b.timestamp - a.timestamp: most recent
first.  JS Array.prototype.sort is stable, matching mergeSort. -/
def byTimestampDesc (a b : GameRecord) : Bool :=
  decide (b.timestamp ≤ a.timestamp)

/-- Statistics.importHistory: fail (false, log unchanged) on a rejected
parse, a non-array top level, or any record failing the field check;
otherwise keep the existing log, add the imported records whose id is not
already present, sort everything by timestamp descending and truncate to
MAX_HISTORY, returning true. -/
def importHistory (history : List GameRecord) (input : Option Json) :
    List GameRecord × Bool :=
  match input with
  | none => (history, false)
  | some j =>
      match j with
      | .arr items =>
          if items.all validGameJson then
            let imported := items.map decodeRecord
            let existingIds := history.map (fun r => r.id)
            let newGames :=
              imported.filter (fun r => ¬ existingIds.contains r.id)
            (((history ++ newGames).mergeSort byTimestampDesc).take
                MAX_HISTORY,
             true)
          else (history, false)
      | _ => (history, false)

/-! ### Player statistics -/

/-- toFixed(1) followed by parseFloat, idealized over exact rationals:
round to the nearest tenth (ties upward). -/
def jsToFixed1 (x : ℚ) : ℚ :=
  (Int.floor (x * 10 + 1 / 2) : ℚ) / 10

/-- Math.min over a list; the empty case (JS Infinity) is only reached
outside the non-empty contexts in which getPlayerStats uses it. -/
def jsMinInt : List Int → Int
  | [] => 0
  | t :: ts => ts.foldl min t

/-- Math.max over a list; empty case as in jsMinInt. -/
def jsMaxInt : List Int → Int
  | [] => 0
  | t :: ts => ts.foldl max t

/-- game.winner.name === playerName: false for the nonsense winner (whose
name is undefined). -/
def winnerNameIs (r : GameRecord) (playerName : String) : Bool :=
  match r.winner with
  | some w => decide (w.name = playerName)
  | none => false

/-- Total of the queried player's row in one record:
game.scores[game.players.indexOf(playerName)] summed with nulls as zero
(only applied to records whose player list contains the name). -/
def recordScoreOf (r : GameRecord) (playerName : String) : Int :=
  rowTotal (r.scores.getD (firstIdx r.players playerName) [])

/-- Result shape of Statistics.getPlayerStats. -/
structure PlayerStats where
  playerName : String
  totalGames : Nat
  wins : Nat
  losses : Nat
  winRate : ℚ
  avgScore : ℚ
  bestScore : Int
  worstScore : Int
deriving DecidableEq

/-- Statistics.getPlayerStats(playerName): null when no record's player
list contains the name; otherwise games / wins / losses / win rate and the
average, best (min) and worst (max) of the player's totals. -/
def getPlayerStats (history : List GameRecord) (playerName : String) :
    Option PlayerStats :=
  let playerGames := history.filter (fun r => r.players.contains playerName)
  if playerGames.length = 0 then none
  else
    let totalGames := playerGames.length
    let wins := (playerGames.filter (fun r => winnerNameIs r playerName)).length
    let winRate := jsToFixed1 ((wins : ℚ) / (totalGames : ℚ) * 100)
    let allScores := playerGames.map (fun r => recordScoreOf r playerName)
    let avgScore :=
      jsToFixed1 (((allScores.foldl (fun a b => a + b) 0 : Int) : ℚ) /
        (allScores.length : ℚ))
    some { playerName := playerName,
           totalGames := totalGames,
           wins := wins,
           losses := totalGames - wins,
           winRate := winRate,
           avgScore := avgScore,
           bestScore := jsMinInt allScores,
           worstScore := jsMaxInt allScores }

/-! ## Concrete example states used to exercise the theorems -/

/-- A completed 2-player game: Alice at 1 a round, Bob at 2. -/
def exG1 : GameState :=
  { players := ["Alice", "Bob"],
    scores := [List.replicate 11 (some 1), List.replicate 11 (some 2)],
    currentRound := 12 }

/-- A freshly started 2-player game. -/
def exG0 : GameState :=
  { players := ["Alice", "Bob"],
    scores := [List.replicate 11 none, List.replicate 11 none],
    currentRound := 1 }

/-- Setup-phase state: one player added, startNewGame never called. -/
def exSetup : GameState := { players := ["A"], scores := [], currentRound := 1 }

/-- Snapshot of a finished 2-player game. -/
def exSnap : GameSnapshot := { players := ["A", "B"], scores := [[some 1], [some 2]] }

/-- History record: A beats B. -/
def exRecA : GameRecord :=
  { id := 1, date := "", players := ["A", "B"], scores := [[some 3], [some 9]],
    winner := some { name := "A", score := 3, index := 0 },
    totalRounds := 1, timestamp := 1 }

/-- History record: B beats A. -/
def exRecB : GameRecord :=
  { id := 2, date := "", players := ["A", "B"], scores := [[some 9], [some 1]],
    winner := some { name := "B", score := 1, index := 1 },
    totalRounds := 1, timestamp := 2 }

/-- Four recorded games in which A won exactly two. -/
def exHist : List GameRecord :=
  [exRecA, exRecB,
   { exRecA with id := 3, timestamp := 3 },
   { exRecB with id := 4, timestamp := 4 }]

/-- A record not yet present in exHist. -/
def exRecNew : GameRecord := { exRecA with id := 5, timestamp := 10 }

/-- The statistics getPlayerStats computes for player A over exHist. -/
def exStatsA : PlayerStats :=
  { playerName := "A",
    totalGames := 4,
    wins := 2,
    losses := 2,
    winRate := jsToFixed1 (((2 : Nat) : ℚ) / ((4 : Nat) : ℚ) * 100),
    avgScore := jsToFixed1 (((24 : Int) : ℚ) / ((4 : Nat) : ℚ)),
    bestScore := 3,
    worstScore := 9 }

/-! ## Helper lemmas about the score-matrix loops -/

theorem writeScores_length {v : List Int} {col : Nat}
    {rows rows₂ : List (List (Option Int))}
    (h : writeScores v col rows = some rows₂) : rows₂.length = rows.length := by
  induction v generalizing rows rows₂ with
  | nil =>
      simp only [writeScores, Option.some.injEq] at h
      subst h; rfl
  | cons x xs ih =>
      cases rows with
      | nil => simp [writeScores] at h
      | cons r rs =>
          simp only [writeScores, Option.map_eq_some'] at h
          obtain ⟨a, ha, rfl⟩ := h
          simp [ih ha]

theorem writeScores_rowlen {v : List Int} {col : Nat} {k : Nat}
    {rows rows₂ : List (List (Option Int))}
    (h : writeScores v col rows = some rows₂)
    (hk : ∀ r ∈ rows, r.length = k) : ∀ r ∈ rows₂, r.length = k := by
  induction v generalizing rows rows₂ with
  | nil =>
      simp only [writeScores, Option.some.injEq] at h
      subst h; exact hk
  | cons x xs ih =>
      cases rows with
      | nil => simp [writeScores] at h
      | cons r rs =>
          simp only [writeScores, Option.map_eq_some'] at h
          obtain ⟨a, ha, rfl⟩ := h
          intro r₂ hr₂
          rcases List.mem_cons.mp hr₂ with h₂ | h₂
          · subst h₂
            rw [List.length_set]
            exact hk r (List.mem_cons_self _ _)
          · exact ih ha (fun r hr => hk r (List.mem_cons_of_mem _ hr)) r₂ h₂

theorem writeScores_eq {v : List Int} {col : Nat}
    {rows : List (List (Option Int))} (h : v.length = rows.length) :
    writeScores v col rows =
      some (List.zipWith (fun x row => row.set col (some x)) v rows) := by
  induction v generalizing rows with
  | nil =>
      cases rows with
      | nil => rfl
      | cons r rs => simp at h
  | cons x xs ih =>
      cases rows with
      | nil => simp at h
      | cons r rs =>
          simp only [List.length_cons, Nat.add_right_cancel_iff] at h
          simp [writeScores, ih h]

theorem clearScores_length {n col : Nat}
    {rows rows₂ : List (List (Option Int))}
    (h : clearScores n col rows = some rows₂) : rows₂.length = rows.length := by
  induction n generalizing rows rows₂ with
  | zero =>
      simp only [clearScores, Option.some.injEq] at h
      subst h; rfl
  | succ m ih =>
      cases rows with
      | nil => simp [clearScores] at h
      | cons r rs =>
          simp only [clearScores, Option.map_eq_some'] at h
          obtain ⟨a, ha, rfl⟩ := h
          simp [ih ha]

theorem clearScores_rowlen {n col k : Nat}
    {rows rows₂ : List (List (Option Int))}
    (h : clearScores n col rows = some rows₂)
    (hk : ∀ r ∈ rows, r.length = k) : ∀ r ∈ rows₂, r.length = k := by
  induction n generalizing rows rows₂ with
  | zero =>
      simp only [clearScores, Option.some.injEq] at h
      subst h; exact hk
  | succ m ih =>
      cases rows with
      | nil => simp [clearScores] at h
      | cons r rs =>
          simp only [clearScores, Option.map_eq_some'] at h
          obtain ⟨a, ha, rfl⟩ := h
          intro r₂ hr₂
          rcases List.mem_cons.mp hr₂ with h₂ | h₂
          · subst h₂
            rw [List.length_set]
            exact hk r (List.mem_cons_self _ _)
          · exact ih ha (fun r hr => hk r (List.mem_cons_of_mem _ hr)) r₂ h₂

theorem clearScores_full {col : Nat} {rows : List (List (Option Int))} :
    clearScores rows.length col rows =
      some (rows.map (fun row => row.set col none)) := by
  induction rows with
  | nil => rfl
  | cons r rs ih => simp [clearScores, ih]

/-- Setting an index back to the value it already holds is the identity. -/
theorem set_getElem?_id {α : Type _} {l : List α} {n : Nat} {a : α}
    (h : l[n]? = some a) : l.set n a = l := by
  induction l generalizing n with
  | nil => simp at h
  | cons x xs ih =>
      cases n with
      | zero =>
          simp only [List.getElem?_cons_zero, Option.some.injEq] at h
          simp [h]
      | succ m =>
          simp only [List.getElem?_cons_succ] at h
          simp [ih h]

/-- Rewriting into each row the value its cell already holds restores the
matrix. -/
theorem zip_restore {col : Nat} {v : List Int}
    {rows : List (List (Option Int))} (hlen : v.length = rows.length)
    (hcells : ∀ i, i < v.length →
      (rows.getD i [])[col]? = some (some (v.getD i 0))) :
    List.zipWith (fun x row => row.set col (some x)) v rows = rows := by
  induction v generalizing rows with
  | nil =>
      cases rows with
      | nil => rfl
      | cons r rs => simp at hlen
  | cons x xs ih =>
      cases rows with
      | nil => simp at hlen
      | cons r rs =>
          simp only [List.length_cons, Nat.add_right_cancel_iff] at hlen
          have h0 := hcells 0 (Nat.succ_pos _)
          simp only [List.getD_cons_zero] at h0
          have hrest : ∀ i, i < xs.length →
              (rs.getD i [])[col]? = some (some (xs.getD i 0)) := by
            intro i hi
            have := hcells (i + 1) (Nat.succ_lt_succ hi)
            simpa using this
          simp only [List.zipWith_cons_cons, ih hlen hrest]
          rw [set_getElem?_id h0]

/-! ## Helper lemmas about Math.min and indexOf -/

theorem foldl_min_le_init (a : Int) (l : List Int) : l.foldl min a ≤ a := by
  induction l generalizing a with
  | nil => exact le_refl a
  | cons x xs ih => exact le_trans (ih (min a x)) (min_le_left a x)

theorem foldl_min_le_mem {x : Int} {l : List Int} (a : Int) (hx : x ∈ l) :
    l.foldl min a ≤ x := by
  induction l generalizing a with
  | nil => cases hx
  | cons y ys ih =>
      rcases List.mem_cons.mp hx with h | h
      · subst h
        exact le_trans (foldl_min_le_init (min a x) ys) (min_le_right a x)
      · exact ih _ h

theorem foldl_min_mem (a : Int) (l : List Int) :
    l.foldl min a = a ∨ l.foldl min a ∈ l := by
  induction l generalizing a with
  | nil => exact Or.inl rfl
  | cons y ys ih =>
      rcases ih (min a y) with h | h
      · rcases min_choice a y with hm | hm
        · exact Or.inl (by rw [List.foldl_cons, h, hm])
        · refine Or.inr ?_
          rw [List.foldl_cons, h, hm]
          exact List.mem_cons_self _ _
      · exact Or.inr (List.mem_cons_of_mem _ h)

theorem firstIdx_lt_length {α : Type _} [BEq α] [LawfulBEq α]
    {l : List α} {a : α} (h : a ∈ l) : firstIdx l a < l.length := by
  induction l with
  | nil => cases h
  | cons x xs ih =>
      by_cases hx : x == a
      · simp [firstIdx, hx]
      · rcases List.mem_cons.mp h with h₂ | h₂
        · subst h₂; simp at hx
        · simpa [firstIdx, hx] using ih h₂

theorem firstIdx_getElem? {α : Type _} [BEq α] [LawfulBEq α]
    {l : List α} {a : α} (h : a ∈ l) : l[firstIdx l a]? = some a := by
  induction l with
  | nil => cases h
  | cons x xs ih =>
      by_cases hx : x == a
      · have : x = a := eq_of_beq hx
        simp [firstIdx, hx, this]
      · rcases List.mem_cons.mp h with h₂ | h₂
        · subst h₂; simp at hx
        · simpa [firstIdx, hx] using ih h₂

theorem firstIdx_first {α : Type _} [BEq α] [LawfulBEq α]
    {l : List α} {a : α} {j : Nat} (hj : j < firstIdx l a) :
    l[j]? ≠ some a := by
  induction l generalizing j with
  | nil => simp [firstIdx] at hj
  | cons x xs ih =>
      by_cases hx : x == a
      · simp [firstIdx, hx] at hj
      · have hx' : (x == a) = false := by simpa using hx
        cases j with
        | zero =>
            intro hc
            simp only [List.getElem?_cons_zero, Option.some.injEq] at hc
            subst hc
            simp at hx
        | succ m =>
            have hj' : m < firstIdx xs a := by
              simp only [firstIdx, hx', Bool.false_eq_true, if_false] at hj
              omega
            simpa using ih hj'

/-! ## Helper lemmas about totals -/

theorem getAllTotals_length (g : GameState) :
    (getAllTotals g).length = g.players.length := by
  simp [getAllTotals]

theorem getAllTotals_getElem? {g : GameState} {j : Nat}
    (hj : j < g.players.length) :
    (getAllTotals g)[j]? = some (getPlayerTotal g j) := by
  simp [getAllTotals, List.getElem?_map, List.getElem?_range hj]

theorem range_map_getD {β γ : Type _} (l : List β) (d : β) (f : β → γ) :
    (List.range l.length).map (fun i => f (l.getD i d)) = l.map f := by
  induction l with
  | nil => rfl
  | cons a l ih =>
      rw [List.length_cons, List.range_succ_eq_map]
      simp only [List.map_cons, List.getD_cons_zero, List.map_map]
      have : ((fun i => f ((a :: l).getD i d)) ∘ Nat.succ) =
          fun i => f (l.getD i d) := by
        funext i
        simp [List.getD_cons_succ]
      rw [this, ih]

/-- Under the row-count invariant, the roster-indexed totals are exactly the
row totals of the matrix. -/
theorem getAllTotals_eq_map {g : GameState}
    (hs : g.scores.length = g.players.length) :
    getAllTotals g = g.scores.map rowTotal := by
  unfold getAllTotals getPlayerTotal
  rw [← hs]
  exact range_map_getD g.scores [] rowTotal

/-! ## Inversion lemmas for the game operations -/

theorem startNewGame_ok {g g₂ : GameState} {names : List String}
    (h : startNewGame g names = .ok g₂) :
    2 ≤ names.length ∧
      g₂ = { g with
             players := names,
             scores := names.map (fun _ => List.replicate maxRounds none),
             currentRound := 1 } := by
  unfold startNewGame at h
  split at h
  · cases h
  · rename_i hlt
    refine ⟨Nat.le_of_not_lt hlt, ?_⟩
    cases h
    rfl

theorem submitRound_ok {g g₂ : GameState} {v : List Int} {b : Bool}
    (h : submitRound g v = .ok (g₂, b)) :
    ¬ maxRounds < g.currentRound ∧ v.length = g.players.length ∧
      ∃ rows, writeScores v (g.currentRound - 1) g.scores = some rows ∧
        g₂ = { g with scores := rows, currentRound := g.currentRound + 1 } ∧
        b = isGameComplete g₂ := by
  unfold submitRound at h
  split at h
  · cases h
  · rename_i hst
    split at h
    · cases h
    · rename_i hv
      split at h
      · cases h
      · rename_i rows hrows
        refine ⟨hst, Decidable.not_not.mp hv, rows, hrows, ?_⟩
        simp only [Except.ok.injEq, Prod.mk.injEq] at h
        obtain ⟨h1, h2⟩ := h
        subst h1
        exact ⟨rfl, h2.symm⟩

theorem undoLastRound_ok {g g₂ : GameState}
    (h : undoLastRound g = .ok g₂) :
    g.currentRound ≠ 1 ∧
      ∃ rows, clearScores g.players.length (g.currentRound - 1 - 1) g.scores =
          some rows ∧
        g₂ = { g with scores := rows, currentRound := g.currentRound - 1 } := by
  unfold undoLastRound at h
  split at h
  · cases h
  · rename_i hr
    split at h
    · cases h
    · rename_i rows hrows
      refine ⟨hr, rows, hrows, ?_⟩
      simp only [Except.ok.injEq] at h
      exact h.symm

/-- The data-model invariant holds in every state of a started game. -/
theorem started_invariant {g : GameState} (h : StartedReachable g) :
    g.scores.length = g.players.length ∧
      ∀ row ∈ g.scores, row.length = maxRounds := by
  induction h with
  | start hok =>
      obtain ⟨-, rfl⟩ := startNewGame_ok hok
      refine ⟨by simp, ?_⟩
      intro row hrow
      simp only [List.mem_map] at hrow
      obtain ⟨name, -, rfl⟩ := hrow
      simp
  | submit _ hok ih =>
      obtain ⟨-, -, rows, hrows, rfl, -⟩ := submitRound_ok hok
      exact ⟨by simpa [writeScores_length hrows] using ih.1,
             writeScores_rowlen hrows ih.2⟩
  | undo _ hok ih =>
      obtain ⟨-, rows, hrows, rfl⟩ := undoLastRound_ok hok
      exact ⟨by simpa [clearScores_length hrows] using ih.1,
             clearScores_rowlen hrows ih.2⟩

/-! ## Helper lemmas about the history log -/

theorem saveGame_take (h : List GameRecord) (snap : GameSnapshot) (now : Int)
    (date : String) :
    (saveGame h snap now date).1 =
      (mkGameRecord snap now date :: h).take MAX_HISTORY := by
  unfold saveGame
  dsimp only
  split
  · rfl
  · rename_i hgt
    exact (List.take_of_length_le (Nat.le_of_not_lt hgt)).symm

theorem cons_take_take {α : Type _} (a : α) (l : List α) (k : Nat) :
    (a :: l.take k).take k = (a :: l).take k := by
  cases k with
  | zero => rfl
  | succ m =>
      simp [List.take_succ_cons, List.take_take, Nat.min_eq_left (Nat.le_succ m)]

theorem saveGameN_eq (snap : GameSnapshot) (n : Nat) :
    saveGameN snap n =
      ((List.range n).reverse.map
        (fun i => mkGameRecord snap (i : Int) "")).take MAX_HISTORY := by
  induction n with
  | zero => rfl
  | succ m ih =>
      show (saveGame (saveGameN snap m) snap (m : Int) "").1 = _
      rw [ih, saveGame_take, cons_take_take]
      congr 1
      rw [List.range_succ, List.reverse_append]
      simp

theorem importHistory_length_le {h : List GameRecord} {input : Option Json}
    (hlen : h.length ≤ MAX_HISTORY) :
    ((importHistory h input).1).length ≤ MAX_HISTORY := by
  cases input with
  | none => simpa [importHistory]
  | some j =>
      cases j with
      | null => simpa [importHistory]
      | bool b => simpa [importHistory]
      | num n => simpa [importHistory]
      | str s => simpa [importHistory]
      | obj fields => simpa [importHistory]
      | arr items =>
          simp only [importHistory]
          split
          · exact List.length_take_le _ _
          · simpa

/-! ## Helper lemmas about the JSON wire shape -/

theorem decodeCell_encodeCell (c : Option Int) :
    decodeCell (encodeCell c) = c := by
  cases c <;> rfl

theorem decodeRow_encodeRow (row : List (Option Int)) :
    decodeRow (encodeRow row) = row := by
  show (row.map encodeCell).map decodeCell = row
  rw [List.map_map]
  have hfun : decodeCell ∘ encodeCell = id := funext decodeCell_encodeCell
  rw [hfun, List.map_id]

theorem decodeScores_encodeScores (scores : List (List (Option Int))) :
    decodeScores (encodeScores scores) = scores := by
  show (scores.map encodeRow).map decodeRow = scores
  rw [List.map_map]
  have hfun : decodeRow ∘ encodeRow = id := funext decodeRow_encodeRow
  rw [hfun, List.map_id]

theorem decodePlayers_encodePlayers (players : List String) :
    decodePlayers (encodePlayers players) = players := by
  show (players.map Json.str).map decodeOneName = players
  rw [List.map_map]
  have hfun : decodeOneName ∘ Json.str = id := funext fun s => rfl
  rw [hfun, List.map_id]

theorem decodeWinner_encodeWinner (w : Option Winner) :
    decodeWinner (some (encodeWinner w)) = w := by
  cases w <;> rfl

theorem decodeRecord_encodeRecord (r : GameRecord) :
    decodeRecord (encodeRecord r) = r := by
  obtain ⟨i, d, p, s, w, t, ts⟩ := r
  simp [decodeRecord, encodeRecord, jget, lookupField, jstr, jint,
    decodePlayers_encodePlayers, decodeScores_encodeScores,
    decodeWinner_encodeWinner]

theorem validGameJson_encode {r : GameRecord} (hw : r.winner.isSome) :
    validGameJson (encodeRecord r) = true := by
  obtain ⟨w, hw2⟩ := Option.isSome_iff_exists.mp hw
  simp [validGameJson, encodeRecord, truthyField, jget, lookupField,
    encodePlayers, encodeScores, hw2, encodeWinner, truthy]

/-! ## Inversion lemma for getPlayerStats -/

theorem getPlayerStats_some {h : List GameRecord} {name : String}
    {s : PlayerStats} (hs : getPlayerStats h name = some s) :
    s.totalGames = (h.filter (fun r => r.players.contains name)).length ∧
      s.wins = ((h.filter (fun r => r.players.contains name)).filter
        (fun r => winnerNameIs r name)).length ∧
      s.losses = s.totalGames - s.wins ∧
      s.winRate = jsToFixed1 ((s.wins : ℚ) / (s.totalGames : ℚ) * 100) := by
  simp only [getPlayerStats] at hs
  split at hs
  · cases hs
  · simp only [Option.some.injEq] at hs
    subst hs
    exact ⟨rfl, rfl, rfl, rfl⟩

/-! ## Claim theorems -/

/-- Claim C4: startNewGame rejects rosters of fewer than two names with a
ValidationError, and for two or more names replaces the roster with the
given names in order, resets currentRound to 1, and allocates a score
matrix of players.length rows by 11 columns with every cell null. -/
theorem claimC4 (g : GameState) (names : List String) :
    (names.length < 2 → startNewGame g names = .error .validationError) ∧
    (2 ≤ names.length → ∃ g₂, startNewGame g names = .ok g₂ ∧
      g₂.players = names ∧ g₂.currentRound = 1 ∧
      g₂.scores.length = names.length ∧
      ∀ row ∈ g₂.scores, row.length = 11 ∧ ∀ c ∈ row, c = none) := by
  constructor
  · intro hlt
    simp [startNewGame, hlt]
  · intro hge
    have hok : startNewGame g names = .ok
        { g with players := names,
                 scores := names.map (fun _ => List.replicate maxRounds none),
                 currentRound := 1 } := by
      simp [startNewGame, Nat.not_lt.mpr hge]
    refine ⟨_, hok, rfl, rfl, by simp, ?_⟩
    intro row hrow
    simp only [List.mem_map] at hrow
    obtain ⟨nm, -, rfl⟩ := hrow
    exact ⟨by simp [maxRounds], fun c hc => List.eq_of_mem_replicate hc⟩

/-- Witness for C4 at the two-name roster Alice, Bob. -/
theorem claimC4_witness :
    2 ≤ (["Alice", "Bob"] : List String).length ∧
    (∃ g₂, startNewGame initGame ["Alice", "Bob"] = .ok g₂ ∧
      g₂.players = ["Alice", "Bob"] ∧ g₂.currentRound = 1 ∧
      g₂.scores.length = (["Alice", "Bob"] : List String).length ∧
      ∀ row ∈ g₂.scores, row.length = 11 ∧ ∀ c ∈ row, c = none) :=
  ⟨by decide, (claimC4 initGame ["Alice", "Bob"]).2 (by decide)⟩

/-- Claim C10: in a state reached only through addPlayer (non-empty roster,
empty score matrix, currentRound 1), a submitRound call whose score list
matches the roster length passes both declared checks and then hits the
missing score row: the result is the modelled TypeError, which is neither
ValidationError nor StateError. -/
theorem claimC10 (g : GameState) (v : List Int) (hp : g.players ≠ [])
    (hs : g.scores = []) (hr : g.currentRound = 1)
    (hv : v.length = g.players.length) :
    submitRound g v = .error .typeError ∧
    GameError.typeError ≠ GameError.validationError ∧
    GameError.typeError ≠ GameError.stateError := by
  refine ⟨?_, by decide, by decide⟩
  cases v with
  | nil =>
      exact absurd (List.length_eq_zero.mp hv.symm) hp
  | cons x xs =>
      simp [submitRound, hr, hv, hs, maxRounds, writeScores]

/-- Witness for C10: one player added, a one-entry score list. -/
theorem claimC10_witness :
    (exSetup.players ≠ [] ∧ exSetup.scores = [] ∧ exSetup.currentRound = 1 ∧
      ([7] : List Int).length = exSetup.players.length) ∧
    submitRound exSetup [7] = .error .typeError :=
  ⟨⟨by decide, rfl, rfl, by decide⟩,
   (claimC10 exSetup [7] (by decide) rfl rfl (by decide)).1⟩

/-- Claim C2: submitRound fails with StateError on a completed game, fails
with ValidationError when the score-list length differs from the roster
length, and otherwise writes roundScores[i] into scores[i][currentRound-1]
for every player, increments currentRound, and returns true exactly when
the incremented currentRound exceeds maxRounds.  Failures produce no state
(the embedding returns only the error), matching the no-partial-mutation
policy: the JS code validates before its first write. -/
theorem claimC2 (g : GameState) (v : List Int)
    (h1 : 1 ≤ g.currentRound) (hs : g.scores.length = g.players.length) :
    (maxRounds < g.currentRound → submitRound g v = .error .stateError) ∧
    (¬ maxRounds < g.currentRound → v.length ≠ g.players.length →
      submitRound g v = .error .validationError) ∧
    (¬ maxRounds < g.currentRound → v.length = g.players.length →
      submitRound g v = .ok
        ({ players := g.players,
           scores := List.zipWith
             (fun x row => row.set (g.currentRound - 1) (some x)) v g.scores,
           currentRound := g.currentRound + 1 },
         decide (maxRounds < g.currentRound + 1))) := by
  refine ⟨?_, ?_, ?_⟩
  · intro hc
    simp [submitRound, hc]
  · intro hc hv
    simp [submitRound, hc, hv]
  · intro hc hv
    have hw : writeScores v (g.currentRound - 1) g.scores =
        some (List.zipWith
          (fun x row => row.set (g.currentRound - 1) (some x)) v g.scores) :=
      writeScores_eq (hv.trans hs.symm)
    simp [submitRound, hc, hv, hw, isGameComplete]

/-- Witness for C2: submitting round 1 of a fresh two-player game. -/
theorem claimC2_witness :
    (1 ≤ exG0.currentRound ∧ exG0.scores.length = exG0.players.length ∧
      ¬ maxRounds < exG0.currentRound ∧
      ([3, 5] : List Int).length = exG0.players.length) ∧
    submitRound exG0 [3, 5] = .ok
      ({ players := exG0.players,
         scores := List.zipWith
           (fun x row => row.set (exG0.currentRound - 1) (some x))
           [3, 5] exG0.scores,
         currentRound := exG0.currentRound + 1 },
       decide (maxRounds < exG0.currentRound + 1)) :=
  ⟨⟨by decide, by decide, by decide, by decide⟩,
   (claimC2 exG0 [3, 5] (by decide) (by decide)).2.2 (by decide) (by decide)⟩

/-- Claim C7 (amended): the invariant scores.length = players.length with
11-cell rows holds in every state of a started game (reachable from a
successful startNewGame through submitRound and undoLastRound); and in any
state with currentRound > maxRounds, submitRound is rejected with a
StateError.  The original claim, quantified over all states reachable by
all public operations including setup-phase addPlayer, is refuted by
claimC7_counterexample. -/
theorem claimC7 :
    (∀ g : GameState, StartedReachable g →
      g.scores.length = g.players.length ∧
        ∀ row ∈ g.scores, row.length = maxRounds) ∧
    (∀ (g : GameState) (v : List Int), maxRounds < g.currentRound →
      submitRound g v = .error .stateError) := by
  refine ⟨fun g h => started_invariant h, fun g v hc => ?_⟩
  simp [submitRound, hc]

/-- Counterexample to C7 as stated: the state after one successful
addPlayer on a fresh game is reachable by the public operations but has one
player and zero score rows. -/
theorem claimC7_counterexample :
    ReachableAny exSetup ∧ ¬ exSetup.scores.length = exSetup.players.length := by
  exact ⟨ReachableAny.add ReachableAny.init
    (show addPlayer initGame "A" = .ok (exSetup, true) from rfl), by decide⟩

/-- Witness for C7 at a freshly started two-player game and a completed
game. -/
theorem claimC7_witness :
    (exG0.scores.length = exG0.players.length ∧
      ∀ row ∈ exG0.scores, row.length = maxRounds) ∧
    submitRound exG1 [0, 0] = .error .stateError := by
  exact ⟨claimC7.1 exG0 (StartedReachable.start
      (show startNewGame initGame ["Alice", "Bob"] = .ok exG0 from rfl)),
    claimC7.2 exG1 [0, 0] (by decide)⟩

/-- Claim C1: getWinner returns null unless the game is complete; on a
complete game (stated for a non-empty roster under the row-count
invariant) it returns the name, total and index of the player whose total
is minimal, and on ties the lowest such index: every earlier player has a
strictly greater total. -/
theorem claimC1 (g : GameState) (hp : g.players ≠ [])
    (hs : g.scores.length = g.players.length) :
    (isGameComplete g = false → getWinner g = none) ∧
    (isGameComplete g = true → ∃ w, getWinner g = some w ∧
      w.index < g.players.length ∧
      g.players[w.index]? = some w.name ∧
      w.score = getPlayerTotal g w.index ∧
      (∀ j, j < g.players.length → w.score ≤ getPlayerTotal g j) ∧
      (∀ j, j < w.index → w.score < getPlayerTotal g j)) := by
  constructor
  · intro hc
    simp [getWinner, hc]
  · intro hc
    have hlen := getAllTotals_length g
    have hpos : 0 < g.players.length := List.length_pos.mpr hp
    cases htot : getAllTotals g with
    | nil =>
        rw [htot] at hlen
        simp at hlen
        omega
    | cons t ts =>
        rw [htot] at hlen
        have hmmem : ts.foldl min t ∈ t :: ts := by
          rcases foldl_min_mem t ts with h | h
          · rw [h]; exact List.mem_cons_self _ _
          · exact List.mem_cons_of_mem _ h
        have hidxlt : firstIdx (t :: ts) (ts.foldl min t) < g.players.length := by
          rw [← hlen]
          exact firstIdx_lt_length hmmem
        have hget : (t :: ts)[firstIdx (t :: ts) (ts.foldl min t)]? =
            some (ts.foldl min t) := firstIdx_getElem? hmmem
        have htotj : ∀ j, j < g.players.length →
            (t :: ts)[j]? = some (getPlayerTotal g j) := by
          intro j hj
          rw [← htot]
          exact getAllTotals_getElem? hj
        have hmin_le : ∀ j, j < g.players.length →
            ts.foldl min t ≤ getPlayerTotal g j := by
          intro j hj
          have hj2 := htotj j hj
          have hmem : getPlayerTotal g j ∈ t :: ts := by
            obtain ⟨hlt, heq⟩ := List.getElem?_eq_some_iff.mp hj2
            exact heq ▸ List.getElem_mem hlt
          rcases List.mem_cons.mp hmem with h | h
          · rw [h]
            exact foldl_min_le_init t ts
          · exact foldl_min_le_mem t h
        have hw : getWinner g = some
            { name := g.players.getD (firstIdx (t :: ts) (ts.foldl min t)) "",
              score := ts.foldl min t,
              index := firstIdx (t :: ts) (ts.foldl min t) } := by
          simp [getWinner, hc, htot]
        have hscore : ts.foldl min t =
            getPlayerTotal g (firstIdx (t :: ts) (ts.foldl min t)) := by
          have := htotj _ hidxlt
          rw [hget] at this
          exact Option.some.inj this
        have hname : g.players[firstIdx (t :: ts) (ts.foldl min t)]? =
            some (g.players.getD (firstIdx (t :: ts) (ts.foldl min t)) "") := by
          have h₂ := List.getElem?_eq_getElem hidxlt
          rw [List.getD_eq_getElem?_getD, h₂]
          rfl
        refine ⟨_, hw, hidxlt, hname, hscore, hmin_le, ?_⟩
        intro j hj
        have hj' : j < g.players.length := lt_trans hj hidxlt
        have hne : getPlayerTotal g j ≠ ts.foldl min t := by
          intro hcontra
          have hne₂ := firstIdx_first hj
          rw [htotj j hj', hcontra] at hne₂
          exact hne₂ rfl
        exact lt_of_le_of_ne (hmin_le j hj') (fun h => hne h.symm)

/-- Witness for C1 at a completed two-player game won by Alice. -/
theorem claimC1_witness :
    (exG1.players ≠ [] ∧ exG1.scores.length = exG1.players.length ∧
      isGameComplete exG1 = true) ∧
    (∃ w, getWinner exG1 = some w ∧
      w.index < exG1.players.length ∧
      exG1.players[w.index]? = some w.name ∧
      w.score = getPlayerTotal exG1 w.index ∧
      (∀ j, j < exG1.players.length → w.score ≤ getPlayerTotal exG1 j) ∧
      (∀ j, j < w.index → w.score < getPlayerTotal exG1 j)) :=
  ⟨⟨by decide, by decide, rfl⟩, (claimC1 exG1 (by decide) (by decide)).2 rfl⟩

/-- Claim C5: on a completed game with a non-empty roster and matching row
count, the statistics engine's independently recomputed winner
(determineWinner over the snapshot) coincides with the game engine's
getWinner in name, score and index, and is not the null answer. -/
theorem claimC5 (g : GameState) (hp : g.players ≠ [])
    (hs : g.scores.length = g.players.length)
    (hc : isGameComplete g = true) :
    determineWinner { players := g.players, scores := g.scores } = getWinner g ∧
    (getWinner g).isSome = true := by
  have htot : getAllTotals g = g.scores.map rowTotal := getAllTotals_eq_map hs
  constructor
  · simp [determineWinner, getWinner, hc, htot]
  · have hlen : 0 < g.scores.length := by
      rw [hs]
      exact List.length_pos.mpr hp
    cases hsc : g.scores with
    | nil => rw [hsc] at hlen; cases hlen
    | cons r rs => simp [getWinner, hc, htot, hsc]

/-- Witness for C5 at a completed two-player game. -/
theorem claimC5_witness :
    (exG1.players ≠ [] ∧ exG1.scores.length = exG1.players.length ∧
      isGameComplete exG1 = true) ∧
    (determineWinner { players := exG1.players, scores := exG1.scores } =
        getWinner exG1 ∧
      (getWinner exG1).isSome = true) :=
  ⟨⟨by decide, by decide, rfl⟩, claimC5 exG1 (by decide) (by decide) rfl⟩

/-- Claim C3: from any state with 2 ≤ currentRound ≤ maxRounds+1 (the
terminal state included) satisfying the row-count invariant, undoing the
last round and resubmitting the very scores that round held restores the
exact previous state, with submitRound reporting the original completion
flag; and (under 1 ≤ currentRound and the invariant) undoLastRound fails,
with StateError, exactly when currentRound = 1. -/
theorem claimC3 (g : GameState) (v : List Int)
    (h2 : 2 ≤ g.currentRound) (hle : g.currentRound ≤ maxRounds + 1)
    (hs : g.scores.length = g.players.length)
    (hv : v.length = g.players.length)
    (hcells : ∀ i, i < v.length →
      (g.scores.getD i [])[g.currentRound - 2]? = some (some (v.getD i 0))) :
    (∃ g₂, undoLastRound g = .ok g₂ ∧
      submitRound g₂ v = .ok (g, isGameComplete g)) ∧
    (∀ g₃ : GameState, 1 ≤ g₃.currentRound →
      g₃.scores.length = g₃.players.length →
      (undoLastRound g₃ = .error .stateError ↔ g₃.currentRound = 1)) := by
  constructor
  · have hne1 : g.currentRound ≠ 1 := by omega
    have hcol : g.currentRound - 1 - 1 = g.currentRound - 2 := by omega
    have hclear : clearScores g.players.length (g.currentRound - 1 - 1)
        g.scores = some (g.scores.map
          (fun row => row.set (g.currentRound - 2) none)) := by
      rw [hcol, ← hs]
      exact clearScores_full
    have hundo : undoLastRound g = .ok
        { g with
          scores := g.scores.map (fun row => row.set (g.currentRound - 2) none),
          currentRound := g.currentRound - 1 } := by
      simp [undoLastRound, hne1, hclear]
    refine ⟨_, hundo, ?_⟩
    have hnc : ¬ maxRounds < g.currentRound - 1 - 1 + 1 := by
      simp only [maxRounds] at hle ⊢
      omega
    have hlen₂ : v.length =
        (g.scores.map (fun row => row.set (g.currentRound - 2) none)).length := by
      rw [List.length_map, hs, hv]
    have hwrite : writeScores v (g.currentRound - 1 - 1)
        (g.scores.map (fun row => row.set (g.currentRound - 2) none)) =
          some g.scores := by
      rw [writeScores_eq hlen₂, hcol, List.zipWith_map_right]
      congr 1
      have hfun : (fun (x : Int) (row : List (Option Int)) =>
          (row.set (g.currentRound - 2) none).set (g.currentRound - 2)
            (some x)) = fun (x : Int) (row : List (Option Int)) =>
          row.set (g.currentRound - 2) (some x) := by
        funext x row
        rw [List.set_set]
      rw [hfun]
      exact zip_restore (hv.trans hs.symm) hcells
    have hr₂ : g.currentRound - 1 + 1 = g.currentRound := by omega
    show submitRound
        { g with
          scores := g.scores.map (fun row => row.set (g.currentRound - 2) none),
          currentRound := g.currentRound - 1 } v = .ok (g, isGameComplete g)
    rw [show (g.currentRound - 1 - 1 + 1 : Nat) = g.currentRound - 1 by omega]
      at hnc
    simp only [submitRound, hnc, if_false, hv, hwrite]
    simp [hr₂, isGameComplete]
  · intro g₃ h₁ hs₃
    constructor
    · intro herr
      by_contra hne
      have hclear₃ : clearScores g₃.players.length (g₃.currentRound - 1 - 1)
          g₃.scores = some (g₃.scores.map
            (fun row => row.set (g₃.currentRound - 1 - 1) none)) := by
        rw [← hs₃]
        exact clearScores_full
      simp [undoLastRound, hne, hclear₃] at herr
    · intro h1eq
      simp [undoLastRound, h1eq]

/-- Witness for C3: undoing and resubmitting the last round of a completed
game. -/
theorem claimC3_witness :
    (2 ≤ exG1.currentRound ∧ exG1.currentRound ≤ maxRounds + 1 ∧
      exG1.scores.length = exG1.players.length ∧
      ([1, 2] : List Int).length = exG1.players.length ∧
      ∀ i, i < ([1, 2] : List Int).length →
        (exG1.scores.getD i [])[exG1.currentRound - 2]? =
          some (some (([1, 2] : List Int).getD i 0))) ∧
    (∃ g₂, undoLastRound exG1 = .ok g₂ ∧
      submitRound g₂ [1, 2] = .ok (exG1, isGameComplete exG1)) :=
  ⟨⟨by decide, by decide, by decide, by decide, by decide⟩,
   (claimC3 exG1 [1, 2] (by decide) (by decide) (by decide) (by decide)
     (by decide)).1⟩

/-- Claim C6: the history log never grows past 50.  saveGame prepends the
new record and keeps the first 50, so from a log within the cap the new
length is min(previous+1, 50); importHistory keeps a within-cap log within
the cap; and 55 successive saves from an empty log leave exactly the
records of the 50 most recent saves, most recent first. -/
theorem claimC6 :
    (∀ (h : List GameRecord) (snap : GameSnapshot) (now : Int) (date : String),
      (saveGame h snap now date).1 =
        (mkGameRecord snap now date :: h).take MAX_HISTORY ∧
      (h.length ≤ MAX_HISTORY →
        ((saveGame h snap now date).1).length =
          min (h.length + 1) MAX_HISTORY)) ∧
    (∀ (h : List GameRecord) (input : Option Json),
      h.length ≤ MAX_HISTORY →
        ((importHistory h input).1).length ≤ MAX_HISTORY) ∧
    (∀ snap : GameSnapshot, (saveGameN snap 55).length = MAX_HISTORY ∧
      saveGameN snap 55 =
        ((List.range 55).reverse.map
          (fun i => mkGameRecord snap (i : Int) "")).take MAX_HISTORY) := by
  refine ⟨fun h snap now date => ⟨saveGame_take h snap now date, fun _ => ?_⟩,
    fun h input hlen => importHistory_length_le hlen, fun snap => ⟨?_, saveGameN_eq snap 55⟩⟩
  · rw [saveGame_take, List.length_take, List.length_cons, Nat.min_comm]
  · simp only [saveGameN_eq, List.length_take, List.length_map,
      List.length_reverse, List.length_range]
    decide

/-- Witness for C6: one save onto an empty log, one import into an empty
log. -/
theorem claimC6_witness :
    (([] : List GameRecord).length ≤ MAX_HISTORY ∧
      ((saveGame [] exSnap 0 "").1).length = min (0 + 1) MAX_HISTORY) ∧
    ((importHistory [] (some (.arr []))).1).length ≤ MAX_HISTORY :=
  ⟨⟨by decide, (claimC6.1 [] exSnap 0 "").2 (by decide)⟩,
   claimC6.2.1 [] (some (.arr [])) (by decide)⟩

/-- Claim C8: importHistory returns false with the log unchanged on a
rejected parse, a non-array top level, or any record missing a truthy
players, scores or winner field; on an array of well-formed records it
keeps the existing records, adds exactly the imported records whose id is
not already in the log, sorts everything by timestamp descending,
truncates to 50, and returns true. -/
theorem claimC8 (h : List GameRecord) :
    importHistory h none = (h, false) ∧
    (∀ j : Json, isArr j = false → importHistory h (some j) = (h, false)) ∧
    (∀ items : List Json, ∀ e ∈ items, validGameJson e = false →
      importHistory h (some (.arr items)) = (h, false)) ∧
    (∀ rs : List GameRecord, (∀ r ∈ rs, r.winner.isSome) →
      importHistory h (some (.arr (rs.map encodeRecord))) =
        (((h ++ rs.filter
            (fun r => ¬ (h.map (fun r₂ => r₂.id)).contains r.id)).mergeSort
          byTimestampDesc).take MAX_HISTORY, true) ∧
      List.Pairwise (fun a b : GameRecord => b.timestamp ≤ a.timestamp)
        ((importHistory h (some (.arr (rs.map encodeRecord)))).1)) := by
  refine ⟨rfl, ?_, ?_, ?_⟩
  · intro j hj
    cases j with
    | arr items => simp [isArr] at hj
    | null => rfl
    | bool b => rfl
    | num n => rfl
    | str s => rfl
    | obj fields => rfl
  · intro items e he hval
    have hall : items.all validGameJson = false := by
      cases hcase : items.all validGameJson with
      | false => rfl
      | true =>
          have := List.all_eq_true.mp hcase e he
          rw [hval] at this
          cases this
    simp [importHistory, hall]
  · intro rs hr
    have hall : (rs.map encodeRecord).all validGameJson = true := by
      rw [List.all_eq_true]
      intro x hx
      obtain ⟨r, hrmem, rfl⟩ := List.mem_map.mp hx
      exact validGameJson_encode (hr r hrmem)
    have hdec : (rs.map encodeRecord).map decodeRecord = rs := by
      rw [List.map_map]
      have hfun : decodeRecord ∘ encodeRecord = id :=
        funext decodeRecord_encodeRecord
      rw [hfun, List.map_id]
    have himp : importHistory h (some (.arr (rs.map encodeRecord))) =
        (((h ++ rs.filter
            (fun r => ¬ (h.map (fun r₂ => r₂.id)).contains r.id)).mergeSort
          byTimestampDesc).take MAX_HISTORY, true) := by
      simp only [importHistory, hall, if_true, hdec]
    refine ⟨himp, ?_⟩
    rw [himp]
    have htrans : ∀ a b c : GameRecord, byTimestampDesc a b = true →
        byTimestampDesc b c = true → byTimestampDesc a c = true := by
      intro a b c hab hbc
      simp only [byTimestampDesc, decide_eq_true_eq] at hab hbc ⊢
      omega
    have htotal : ∀ a b : GameRecord,
        (byTimestampDesc a b || byTimestampDesc b a) = true := by
      intro a b
      simp only [byTimestampDesc, Bool.or_eq_true, decide_eq_true_eq]
      omega
    have hsorted := List.sorted_mergeSort htrans htotal
      (h ++ rs.filter (fun r => ¬ (h.map (fun r₂ => r₂.id)).contains r.id))
    have hsorted₂ : List.Pairwise
        (fun a b : GameRecord => b.timestamp ≤ a.timestamp)
        ((h ++ rs.filter
            (fun r => ¬ (h.map (fun r₂ => r₂.id)).contains r.id)).mergeSort
          byTimestampDesc) := by
      refine hsorted.imp ?_
      intro a b hab
      simpa [byTimestampDesc] using hab
    exact hsorted₂.sublist (List.take_sublist _ _)

/-- Witness for C8: a non-array input fails; importing one new well-formed
record into the four-record log succeeds. -/
theorem claimC8_witness :
    importHistory exHist (some (.num 3)) = (exHist, false) ∧
    (importHistory exHist (some (.arr ([exRecNew].map encodeRecord))) =
        (((exHist ++ [exRecNew].filter
            (fun r => ¬ (exHist.map (fun r₂ => r₂.id)).contains r.id)).mergeSort
          byTimestampDesc).take MAX_HISTORY, true) ∧
      List.Pairwise (fun a b : GameRecord => b.timestamp ≤ a.timestamp)
        ((importHistory exHist (some (.arr ([exRecNew].map encodeRecord)))).1)) :=
  ⟨(claimC8 exHist).2.1 (.num 3) rfl,
   (claimC8 exHist).2.2.2 [exRecNew] (by decide)⟩

/-- Claim C9: getPlayerStats returns null exactly when no record's player
list contains the queried name; otherwise it reports the number of
appearances, counts a win exactly when the stored winner name equals the
queried name, reports losses as totalGames minus wins and the win rate as
the percentage rounded to one decimal; in particular a player with 4
appearances and 2 wins gets winRate exactly 50.0. -/
theorem claimC9 (h : List GameRecord) (name : String) :
    ((∀ r ∈ h, r.players.contains name = false) →
      getPlayerStats h name = none) ∧
    ((∃ r ∈ h, r.players.contains name = true) →
      ∃ s, getPlayerStats h name = some s ∧
        s.totalGames = (h.filter (fun r => r.players.contains name)).length ∧
        s.wins = ((h.filter (fun r => r.players.contains name)).filter
          (fun r => winnerNameIs r name)).length ∧
        s.losses = s.totalGames - s.wins ∧
        s.winRate = jsToFixed1 ((s.wins : ℚ) / (s.totalGames : ℚ) * 100)) ∧
    (∀ s : PlayerStats, getPlayerStats h name = some s →
      s.totalGames = 4 → s.wins = 2 → s.winRate = 50) := by
  refine ⟨?_, ?_, ?_⟩
  · intro hnone
    have hfil : h.filter (fun r => r.players.contains name) = [] := by
      rw [List.filter_eq_nil_iff]
      intro a ha
      rw [hnone a ha]
      simp
    simp only [getPlayerStats, hfil]
    rfl
  · intro hmem
    obtain ⟨r, hr, hcont⟩ := hmem
    have hmemf : r ∈ h.filter (fun r => r.players.contains name) :=
      List.mem_filter.mpr ⟨hr, hcont⟩
    have hne : ¬ (h.filter (fun r => r.players.contains name)).length = 0 := by
      intro h0
      rw [List.length_eq_zero] at h0
      rw [h0] at hmemf
      cases hmemf
    have hissome : (getPlayerStats h name).isSome = true := by
      simp only [getPlayerStats]
      rw [if_neg hne]
      rfl
    obtain ⟨s, hsome⟩ := Option.isSome_iff_exists.mp hissome
    obtain ⟨h1, h2, h3, h4⟩ := getPlayerStats_some hsome
    exact ⟨s, hsome, h1, h2, h3, h4⟩
  · intro s hsome h4g h2w
    have hrate := (getPlayerStats_some hsome).2.2.2
    rw [h4g, h2w] at hrate
    rw [hrate]
    norm_num [jsToFixed1]

/-- Witness for C9: an absent player, a present player, and the 2-of-4
instance over the four-record log. -/
theorem claimC9_witness :
    getPlayerStats exHist "Zed" = none ∧
    (∃ s, getPlayerStats exHist "A" = some s ∧
      s.totalGames = (exHist.filter (fun r => r.players.contains "A")).length ∧
      s.wins = ((exHist.filter (fun r => r.players.contains "A")).filter
        (fun r => winnerNameIs r "A")).length ∧
      s.losses = s.totalGames - s.wins ∧
      s.winRate = jsToFixed1 ((s.wins : ℚ) / (s.totalGames : ℚ) * 100)) ∧
    exStatsA.winRate = 50 :=
  ⟨(claimC9 exHist "Zed").1 (by decide),
   (claimC9 exHist "A").2.1 (by decide),
   (claimC9 exHist "A").2.2 exStatsA rfl rfl rfl⟩

end FiveCrowns
